import Mathlib

/-!
Verification of the sales-sheet filtering pipeline (schema detection,
filter stages, two-pass deduplication) against its natural-language
specification.

The Python source (src/filters.py, src/preprocess.py, src/schema_detection.py,
src/run_preset.py, src/constants.py) is shallowly embedded below:

* table cells are `Option String` (pandas `None`/`NaN` is `none`);
* already-parsed datetimes (`pd.to_datetime` results) are `Option Int`
  timestamps, `none` standing for `NaT`, ordered chronologically;
* numeric parses (`float(...)`, `pd.to_numeric`) yield `Option ℚ`;
* each filter stage is a pure function `List Row → List Row × Nat`,
  exactly as in the source.

pandas facts used by the embedding (checked against pandas semantics):
* `sort_values(..., ascending=True)` uses `na_position='last'`, so a
  missing value (`NaT`/`NaN`) in a sort key column ranks AFTER every
  present value, i.e. as the greatest element of that key;
* boolean-series comparisons with `None` cells (`series > x`) yield
  `False` for the `None` cells;
* `groupby(k).tail(1)` on a frame sorted by `k` first keeps the last row
  of every (contiguous) group.
-/

namespace SalesSheet

/-! ### Python string primitives -/

/-- Python whitespace for `str.strip` / `\s` (ASCII fragment). -/
def pyWs (c : Char) : Bool :=
  c = ' ' || c = '\t' || c = '\n' || c = '\r' || c = '\x0b' || c = '\x0c'

/-- `str.strip()` on a character list. -/
def stripChars (cs : List Char) : List Char :=
  ((cs.dropWhile pyWs).reverse.dropWhile pyWs).reverse

/-- Python `str.strip()`. -/
def pyStrip (s : String) : String :=
  ⟨stripChars s.data⟩

/-- Python `str.upper()` (ASCII fragment, enough for the data handled here). -/
def pyUpper (s : String) : String :=
  ⟨s.data.map Char.toUpper⟩

/-- `_safe_str` from `src/filters.py`: `fillna("").astype(str).str.strip()`
on a single cell. -/
def safeStr : Option String → String
  | none => ""
  | some s => pyStrip s

/-- Digit value of an ASCII digit. -/
def digitVal (c : Char) : Nat := c.toNat - 48

/-- Digit run with single underscores allowed between digits, accumulating a
value; mirrors CPython's integer-literal grammar used by `int(str)`.
The previous character is always a digit when this is called. -/
def intDigitsCore : Nat → List Char → Option Nat
  | acc, [] => some acc
  | acc, '_' :: c :: rest =>
      if c.isDigit then intDigitsCore (acc * 10 + digitVal c) rest else none
  | acc, c :: rest =>
      if c.isDigit then intDigitsCore (acc * 10 + digitVal c) rest else none

/-- Nonempty digit sequence (underscore separators allowed) starting a list. -/
def intDigits : List Char → Option Nat
  | c :: rest => if c.isDigit then intDigitsCore (digitVal c) rest else none
  | [] => none

/-- Python `int(s)` on a string (after the caller's `strip()`): optional
sign, then decimal digits with optional single underscores between digits.
Returns `none` where CPython raises `ValueError`. -/
def pyInt (s : String) : Option Int :=
  match (pyStrip s).data with
  | '+' :: rest => (intDigits rest).map Int.ofNat
  | '-' :: rest => (intDigits rest).map (fun n => -(n : Int))
  | rest => (intDigits rest).map Int.ofNat

/-- Underscored digit run: consumes digits, permitting single underscores
between digits (CPython numeric-literal grammar); returns accumulated
value, number of digits consumed, and the rest. -/
def digitRunCore (v cnt : Nat) : List Char → Nat × Nat × List Char
  | '_' :: c :: rest =>
      if c.isDigit then digitRunCore (v * 10 + digitVal c) (cnt + 1) rest
      else (v, cnt, '_' :: c :: rest)
  | c :: rest =>
      if c.isDigit then digitRunCore (v * 10 + digitVal c) (cnt + 1) rest
      else (v, cnt, c :: rest)
  | [] => (v, cnt, [])

/-- Mantissa of a Python float literal: `digits[.digits]` or `.digits`.
Returns the scaled integer mantissa `M`, the fractional digit count `c`
(the value is `M / 10^c`) and the unconsumed rest. -/
def parseMantissa : List Char → Option (Nat × Nat × List Char)
  | '.' :: r =>
    let (v, c, rest) := digitRunCore 0 0 r
    if c = 0 then none else some (v, c, rest)
  | cs =>
    let (v1, c1, rest1) := digitRunCore 0 0 cs
    if c1 = 0 then none
    else
      match rest1 with
      | '.' :: r2 =>
        let (v2, c2, rest2) := digitRunCore 0 0 r2
        some (v1 * 10 ^ c2 + v2, c2, rest2)
      | rest => some (v1, 0, rest)

/-- Exponent part after `e`/`E`: optional sign then digits, to the end. -/
def parseExp (cs : List Char) : Option Int :=
  let core : List Char → Option Int := fun r =>
    let (v, c, rest) := digitRunCore 0 0 r
    if c = 0 then none else if rest.isEmpty then some (v : Int) else none
  match cs with
  | '+' :: r => core r
  | '-' :: r => (core r).map Neg.neg
  | r => core r

/-- Python `float(s)`: optional sign, decimal mantissa, optional exponent;
the value `±M/10^c · 10^ex` is assembled with a single `mkRat`.
(The special spellings `inf`/`infinity`/`nan` are not modelled; in
`filter_distance` an infinite value is masked by the `> 1000` plausibility
rule and a NaN behaves as missing, so both coincide with `none` there.) -/
def pyFloat (s : String) : Option ℚ :=
  let cs := stripChars s.data
  let signed : Bool × List Char :=
    match cs with
    | '+' :: r => (false, r)
    | '-' :: r => (true, r)
    | r => (false, r)
  let build : Nat → Nat → Int → ℚ := fun m c ex =>
    let num : Int := (m : Int) * 10 ^ ex.toNat
    let den : Nat := 10 ^ (c + (-ex).toNat)
    mkRat (if signed.1 then -num else num) den
  match parseMantissa signed.2 with
  | none => none
  | some (m, c, rest) =>
    match rest with
    | [] => some (build m c 0)
    | e :: r2 =>
      if e = 'e' || e = 'E' then
        match parseExp r2 with
        | some ex => some (build m c ex)
        | none => none
      else none

/-! ### Canonical rows

`build_canonical_frame` (src/preprocess.py) always materialises the
canonical columns used below (a column whose source is unmapped is a
column of `None` cells), so the `"X" in df.columns` guards of the filter
stages are all true in the pipeline; cells themselves remain optional. -/

/-- One canonical record, restricted to the fields the verified stages
read.  Date-bearing cells are already-parsed (`Option Int`); the
`soldDate`/`saleDate`/`lastDate` fallbacks of `_effective_date_series`
are carried even though the canonical frame never populates them. -/
structure Row where
  firstName : Option String := none
  lastName : Option String := none
  fullName : Option String := none
  dealNumber : Option String := none
  address1 : Option String := none
  city : Option String := none
  state : Option String := none
  zip : Option String := none
  vin : Option String := none
  year : Option String := none
  distance : Option String := none
  deliveryDate : Option Int := none
  soldDate : Option Int := none
  saleDate : Option Int := none
  lastDate : Option Int := none
  deriving DecidableEq, Repr

/-- `_effective_date_series` (src/filters.py): `to_datetime(DeliveryDate)`
`combine_first`-ed with SoldDate, SaleDate, Last_Date in that order. -/
def effDate (r : Row) : Option Int :=
  r.deliveryDate <|> r.soldDate <|> r.saleDate <|> r.lastDate

/-! ### Model-year filter (src/filters.py `filter_model_year`,
src/run_preset.py `run_pipeline` model-year window) -/

/-- The `to_int` helper inside `filter_model_year`: `int(str(v).strip())`,
`None` on failure.  A missing cell stringifies to `"None"`, which never
parses, so `none` cells map to `none`. -/
def yearToInt (v : Option String) : Option Int :=
  v.bind pyInt

/-- `filter_model_year(df, operator, year)`.  A `None` year or a missing
`Year` column returns the table unchanged (the canonical frame always has
the column, see above).  The pandas comparison of a `None`-parsed cell
with the bound is `False`, i.e. unparseable years are dropped
(`keep.fillna(False)` is then a no-op). -/
def filterModelYear (df : List Row) (operator : String) (year : Option Int) :
    List Row × Nat :=
  match year with
  | none => (df, 0)
  | some y =>
    let keep : Row → Bool := fun r =>
      match yearToInt r.year with
      | some yy =>
        if operator = "newer" then decide (yy > y)
        else if operator = "older" then decide (yy < y)
        else decide (yy = y)
      | none => false
    let out := df.filter keep
    (out, df.length - out.length)

/-- The model-year window of `run_pipeline` (src/run_preset.py lines
146-157): inclusive `min_year` as `filter_model_year(df, "newer", min-1)`
followed by inclusive `max_year` as `filter_model_year(df, "older", max+1)`. -/
def modelYearWindow (df : List Row) (miny maxy : Int) : List Row :=
  let d1 := (filterModelYear df "newer" (some (miny - 1))).1
  (filterModelYear d1 "older" (some (maxy + 1))).1

/-! ### Distance filter (src/filters.py `filter_distance`) -/

/-- The `to_float` helper of `filter_distance`:
`float(str(v).replace(",", ""))`, `None` on failure (`str(None)` is
`"None"`, which never parses). -/
def distToFloat (v : Option String) : Option ℚ :=
  match v with
  | none => none
  | some s => pyFloat ⟨s.data.filter (fun c => c ≠ ',')⟩

/-- The per-row distance after the implausibility mask
`miles.where(~(miles.notna() & (miles > 1000)), other=None)`:
values above 1000 are treated as missing. -/
def distMiles (r : Row) : Option ℚ :=
  match distToFloat r.distance with
  | some m => if m > 1000 then none else some m
  | none => none

/-- Number of rows with a valid (parsed, plausible) distance. -/
def distValidCount (df : List Row) : Nat :=
  (df.filter (fun r => (distMiles r).isSome)).length

/-- `filter_distance(df, max_miles)`.  `valid_ratio < 0.05` is rendered as
`20 * validCount < length` (for the empty frame pandas computes
`NaN < 0.05 = False`, matching `0 < 0 = False`).  When the gate passes,
keep is `(miles <= max_miles) | miles.isna()`. -/
def filterDistance (df : List Row) (maxMiles : ℚ) : List Row × Nat :=
  if 20 * distValidCount df < df.length then (df, 0)
  else
    let keep : Row → Bool := fun r =>
      match distMiles r with
      | some m => decide (m ≤ maxMiles)
      | none => true
    let out := df.filter keep
    (out, df.length - out.length)

/-! ### Corporate exclusion (src/constants.py lexicons,
src/filters.py `_corporate_score` / `filter_corporate`) -/

/-- `EXCLUDE_BRANDS` (src/constants.py). -/
def EXCLUDE_BRANDS : List String :=
  ["MANHEIM", "ADESA", "CARMAX", "AUTONATION", "LITHIA", "PENSKE", "SONIC",
   "GROUP 1", "CARVANA", "ENTERPRISE", "HERTZ", "AVIS", "BUDGET", "COPART",
   "IAA", "VROOM"]

/-- `EXCLUDE_OEMS` (src/constants.py). -/
def EXCLUDE_OEMS : List String :=
  ["TOYOTA", "HONDA", "CHEVROLET", "CHEVY", "FORD", "NISSAN", "KIA",
   "HYUNDAI", "CHRYSLER", "DODGE", "JEEP", "RAM", "VOLKSWAGEN", "VW",
   "AUDI", "BMW", "MERCEDES", "MERCEDES-BENZ", "LEXUS", "ACURA", "INFINITI",
   "GMC", "BUICK", "CADILLAC", "SUBARU", "MAZDA", "VOLVO", "PORSCHE"]

/-- `EXCLUDE_KEYWORDS` (src/constants.py). -/
def EXCLUDE_KEYWORDS : List String :=
  ["AUTO", "MOTORS", "SALES", "SERVICE", "PARTS", "BODY", "FLEET",
   "WHOLESALE", "AUCTION", "DEALER", "ROOFTOP", "GROUP", "HOLDINGS"]

/-- `CORPORATE_SUFFIXES` (src/constants.py). -/
def CORPORATE_SUFFIXES : List String :=
  ["INC", "LLC", "LLP", "PLC", "CORP", "CO", "COMPANY", "LTD", "TRUST",
   "FOUNDATION", "ASSOCIATION"]

/-- Sublist-of-consecutive-characters test (Python `needle in haystack`). -/
def isSubList (n : List Char) : List Char → Bool
  | [] => n.isEmpty
  | c :: rest => n.isPrefixOf (c :: rest) || isSubList n rest

/-- Python substring containment `n in h`. -/
def strContains (h n : String) : Bool :=
  isSubList n.data h.data

/-- Character class `[A-Z0-9]` of the token-split regexes. -/
def isUpperAlnum (c : Char) : Bool :=
  ('A' ≤ c && c ≤ 'Z') || c.isDigit

mutual

/-- `re.split(r"[^A-Z0-9]+", t)`, main state: accumulating a token. -/
def splitNAGo (cur : List Char) : List Char → List String
  | [] => [⟨cur.reverse⟩]
  | c :: rest =>
    if isUpperAlnum c then splitNAGo (c :: cur) rest
    else ⟨cur.reverse⟩ :: splitNASkip rest

/-- `re.split(r"[^A-Z0-9]+", t)`, inside a separator run. -/
def splitNASkip : List Char → List String
  | [] => [""]
  | c :: rest =>
    if isUpperAlnum c then splitNAGo [c] rest else splitNASkip rest

end

/-- `re.split(r"[^A-Z0-9]+", t)` (empty pieces at the edges included,
exactly as `re.split` produces them). -/
def splitNonAlnum (t : String) : List String :=
  splitNAGo [] t.data

/-- `_corporate_score` (src/filters.py).  The source writes the
word-boundary patterns as `r"\\b" + re.escape(b) + r"\\b"`: inside a raw
string `\\b` is a literal backslash followed by `b`, so the regex matches
the three-character text `\b` literally, not a word boundary — the brand
and keyword branches therefore fire only when the name text itself
contains a literal `\b…\b`.  This is embedded as substring containment of
`"\\b" ++ tok ++ "\\b"` (backslash, `b`, token, backslash, `b`). -/
def corporateScore (text : String) : Int :=
  if text = "" then 0
  else
    let t := pyUpper text
    let tokens := splitNonAlnum t
    (if EXCLUDE_BRANDS.any (fun b => strContains t ("\\b" ++ b ++ "\\b")) then 3 else 0)
    + (if EXCLUDE_KEYWORDS.any (fun k => strContains t ("\\b" ++ k ++ "\\b")) then 2 else 0)
    + (if CORPORATE_SUFFIXES.any (fun sfx => tokens.contains sfx) then 2 else 0)

/-- Python `str.istitle()` (ASCII fragment): uppercase letters only after
uncased characters, lowercase only after cased ones, at least one cased
character. -/
def pyIstitleGo : Bool → Bool → List Char → Bool
  | _, seen, [] => seen
  | prevCased, seen, c :: rest =>
    if c.isUpper then
      if prevCased then false else pyIstitleGo true true rest
    else if c.isLower then
      if prevCased then pyIstitleGo true true rest else false
    else pyIstitleGo false seen rest

/-- Python `str.istitle()`. -/
def pyIstitle (s : String) : Bool :=
  pyIstitleGo false false s.data

/-- `text_full` of `filter_corporate`: the safe-stripped FullName cell. -/
def textFull (r : Row) : String := safeStr r.fullName

/-- `text_first_last` of `filter_corporate`: First, a space, Last. -/
def textFirstLast (r : Row) : String :=
  safeStr r.firstName ++ " " ++ safeStr r.lastName

/-- The two uppercased name fields `name_fields_up` of the hard rule. -/
def corpNameFields (r : Row) : List String :=
  [pyUpper (textFull r), pyUpper (textFirstLast r)]

/-- Brand/OEM/keyword raw-substring hit in a name field (the hard rule's
`oem_hit or brand_hit or keyword_hit`). -/
def corpSubstringHit (r : Row) : Bool :=
  (corpNameFields r).any (fun f =>
    EXCLUDE_OEMS.any (fun tok => strContains f tok)
    || EXCLUDE_BRANDS.any (fun tok => strContains f tok)
    || EXCLUDE_KEYWORDS.any (fun tok => strContains f tok))

/-- Corporate-suffix whole-token hit of the hard rule (`suffix_hit`). -/
def corpSuffixHit (r : Row) : Bool :=
  (corpNameFields r).any (fun f =>
    CORPORATE_SUFFIXES.any (fun sfx => (splitNonAlnum f).contains sfx))

/-- The hard force-exclude rule of `filter_corporate`. -/
def corpForcedHit (r : Row) : Bool :=
  corpSubstringHit r || corpSuffixHit r

/-- `person_like`: both First and Last nonempty and `istitle()`. -/
def corpPersonLike (r : Row) : Bool :=
  safeStr r.firstName ≠ "" && safeStr r.lastName ≠ ""
    && pyIstitle (safeStr r.firstName) && pyIstitle (safeStr r.lastName)

/-- The accumulated numeric score before the hard rule. -/
def corpBaseScore (r : Row) : Int :=
  corporateScore (textFull r) + corporateScore (textFirstLast r)
    - (if corpPersonLike r then 3 else 0)

/-- The row score of `filter_corporate`: the hard rule overwrites the
accumulated score with 999. -/
def corpRowScore (r : Row) : Int :=
  if corpForcedHit r then 999 else corpBaseScore r

/-- `filter_corporate(df)`: keep rows with score `< 3`. -/
def filterCorporate (df : List Row) : List Row × Nat :=
  let out := df.filter (fun r => corpRowScore r < 3)
  (out, df.length - out.length)

/-! ### Address-key normalization (src/filters.py `_normalize_address_key`)

The component normalizer applies, in order: `strip`+`upper`, the PO-Box
regex sub, the unit-token regex sub, punctuation removal, whitespace
collapse, `strip`.  The two regex substitutions are embedded by scanning
the maximal word-character/非word-character run decomposition of the
text; a regex match of `\bP\.?\s*O\.?\s*BOX\b` must start at a word-run
start, each `\.?\s*` gap must consume an entire separator run of the
form optional dot followed by whitespace, and `BOX` must end its run
(trailing `\b`), which yields the finitely many run shapes matched
below. -/

/-- Python regex word character `\w` (ASCII fragment): `[A-Za-z0-9_]`. -/
def isWordChar (c : Char) : Bool :=
  c.isAlpha || c.isDigit || c = '_'

/-- A maximal run of word or non-word characters. -/
inductive Run where
  | word (cs : List Char)
  | sep (cs : List Char)
  deriving DecidableEq, Repr

/-- The characters of a run. -/
def Run.chars : Run → List Char
  | .word cs => cs
  | .sep cs => cs

/-- Run decomposition, main loop (`cur` is reversed). -/
def runsGo (curWord : Bool) (cur : List Char) : List Char → List Run
  | [] => [if curWord then Run.word cur.reverse else Run.sep cur.reverse]
  | c :: rest =>
    if isWordChar c = curWord then runsGo curWord (c :: cur) rest
    else (if curWord then Run.word cur.reverse else Run.sep cur.reverse)
      :: runsGo (isWordChar c) [c] rest

/-- Decompose a text into its alternating nonempty runs. -/
def runsOf : List Char → List Run
  | [] => []
  | c :: rest => runsGo (isWordChar c) [c] rest

/-- Flatten runs back to text. -/
def runsFlat (rs : List Run) : List Char :=
  (rs.map Run.chars).flatten

/-- A separator run matching the `\.?\s*` gap: optional leading dot,
then only whitespace. -/
def isDotWs (cs : List Char) : Bool :=
  match cs with
  | '.' :: r => r.all pyWs
  | r => r.all pyWs

/-- The replacement text `"PO BOX"` as runs. -/
def poBoxRuns : List Run :=
  [Run.word ['P', 'O'], Run.sep [' '], Run.word ['B', 'O', 'X']]

/-- `re.sub(r"\bP\.?\s*O\.?\s*BOX\b", "PO BOX", v)` on the run list:
the possible match shapes are `POBOX` in one run, `PO`⟨gap⟩`BOX`,
`P`⟨gap⟩`OBOX`, and `P`⟨gap⟩`O`⟨gap⟩`BOX` (each `P`/`PO`-part starting
its run by the leading `\b`, each `BOX` ending its run by the trailing
`\b`, gaps entire separator runs of shape `\.?\s*`). -/
def poRunsGo : Nat → List Run → List Run
  | 0, rs => rs
  | _ + 1, [] => []
  | fuel + 1, Run.sep cs :: rest => Run.sep cs :: poRunsGo fuel rest
  | fuel + 1, Run.word cs :: rest =>
    match rest with
    | Run.sep s1 :: rest1 =>
      match rest1 with
      | Run.word w2 :: rest2 =>
        if cs = ['P', 'O', 'B', 'O', 'X'] then
          -- the match is inside `cs`; the following separator cannot
          -- start a match, so scanning resumes afterwards
          poBoxRuns ++ Run.sep s1 :: poRunsGo fuel rest1
        else if cs = ['P', 'O'] && isDotWs s1 && w2 = ['B', 'O', 'X'] then
          poBoxRuns ++ poRunsGo fuel rest2
        else if cs = ['P'] && isDotWs s1 && w2 = ['O', 'B', 'O', 'X'] then
          poBoxRuns ++ poRunsGo fuel rest2
        else if cs = ['P'] && isDotWs s1 && w2 = ['O'] then
          match rest2 with
          | Run.sep s2 :: rest2x =>
            match rest2x with
            | Run.word w3 :: rest3 =>
              if isDotWs s2 && w3 = ['B', 'O', 'X'] then
                poBoxRuns ++ poRunsGo fuel rest3
              else
                -- failed deep probe: neither the `O` run nor the
                -- separators can start a match, rescan at the next word
                Run.word cs :: Run.sep s1 :: Run.word w2 :: Run.sep s2
                  :: poRunsGo fuel rest2x
            | _ => Run.word cs :: Run.sep s1 :: poRunsGo fuel rest1
          | _ => Run.word cs :: Run.sep s1 :: poRunsGo fuel rest1
        else
          -- no match at this word run: emit it and the separator (which
          -- never starts a match) and rescan from the next word run
          Run.word cs :: Run.sep s1 :: poRunsGo fuel rest1
      | _ =>
        (if cs = ['P', 'O', 'B', 'O', 'X'] then poBoxRuns else [Run.word cs])
          ++ Run.sep s1 :: poRunsGo fuel rest1
    | _ =>
      (if cs = ['P', 'O', 'B', 'O', 'X'] then poBoxRuns else [Run.word cs])
        ++ poRunsGo fuel rest

/-- The PO-Box canonicalization pass (the fuel, one unit per scan step of
at least one run, never runs out at `length` units). -/
def poSub (s : String) : String :=
  ⟨runsFlat (poRunsGo (runsOf s.data).length (runsOf s.data))⟩

/-- The word alternatives of the unit-token regex (the `#` alternative is
handled separately: `\b#\b` matches a lone `#` directly between word
characters). -/
def UNIT_WORDS : List (List Char) :=
  ["APT", "APARTMENT", "UNIT", "STE", "SUITE", "BLDG", "BUILDING", "RM",
    "ROOM"].map String.data

/-- `re.sub(r"\b(APT|APARTMENT|UNIT|STE|SUITE|#|BLDG|BUILDING|RM|ROOM)\b",
"UNIT", v)` on the run list: a word run wholly equal to an alternative is
replaced; a separator run that is exactly `#` with word runs on both
sides (the boundaries of `\b#\b`) is replaced. -/
def unitRunsGo (hasPrevWord : Bool) : List Run → List Run
  | [] => []
  | Run.word cs :: rest =>
    (if decide (cs ∈ UNIT_WORDS) then Run.word "UNIT".data else Run.word cs)
      :: unitRunsGo true rest
  | Run.sep cs :: rest =>
    if cs = ['#'] && hasPrevWord
        && (match rest with | Run.word _ :: _ => true | _ => false) then
      Run.word "UNIT".data :: unitRunsGo true rest
    else Run.sep cs :: unitRunsGo false rest

/-- The unit-token canonicalization pass. -/
def unitSub (s : String) : String :=
  ⟨runsFlat (unitRunsGo false (runsOf s.data))⟩

/-- `re.sub(r"[^A-Z0-9\s]", " ", v)`: character-wise. -/
def punctSub (s : String) : String :=
  ⟨s.data.map (fun c => if isUpperAlnum c || pyWs c then c else ' ')⟩

/-- `re.sub(r"\s+", " ", v)`: collapse whitespace runs to single spaces. -/
def collapseWsGo (prevWs : Bool) : List Char → List Char
  | [] => []
  | c :: rest =>
    if pyWs c then (if prevWs then [] else [' ']) ++ collapseWsGo true rest
    else c :: collapseWsGo false rest

/-- Whitespace collapse as a string function. -/
def collapseWs (s : String) : String :=
  ⟨collapseWsGo false s.data⟩

/-- The inner `norm` of `_normalize_address_key`. -/
def normComponent (s : String) : String :=
  pyStrip (collapseWs (punctSub (unitSub (poSub (pyUpper (pyStrip s))))))

/-- `norm` applied to a cell (`if s is None: return ""`). -/
def normCompOpt : Option String → String
  | none => ""
  | some s => normComponent s

/-- The Zip component: `re.sub(r"[^0-9]", "", str(z or ""))[:5]`. -/
def zip5Of (z : Option String) : List Char :=
  ((match z with | none => "" | some s => s).data.filter Char.isDigit).take 5

/-- `_normalize_address_key(a1, city, state, z)`. -/
def normalizeAddressKey (a1 city state z : Option String) : String :=
  let a1n := normCompOpt a1
  let cityn := normCompOpt city
  let staten := normCompOpt state
  let zip5 := zip5Of z
  if a1n ≠ "" ∧ cityn ≠ "" ∧ staten ≠ "" ∧ zip5 ≠ [] then
    a1n ++ "|" ++ cityn ++ "|" ++ staten ++ "|" ++ (⟨zip5⟩ : String)
  else ""

/-! ### Stable sorting

Python's `sorted` and pandas' `sort_values` are stable sorts, and the
stable sorted permutation of a list with respect to a total, transitive
comparison is unique, so any stable sort embeds them; the structural
insertion sort below is used because it evaluates by kernel reduction. -/

/-- Stable insertion: `x` (originating earlier) goes before the first
element `y` with `le x y`, so ties keep their original order. -/
def stableInsert (le : α → α → Bool) (x : α) : List α → List α
  | [] => [x]
  | y :: ys => if le x y then x :: y :: ys else y :: stableInsert le x ys

/-- Stable insertion sort. -/
def stableSort (le : α → α → Bool) : List α → List α
  | [] => []
  | x :: xs => stableInsert le x (stableSort le xs)

/-! ### Schema selection (src/schema_detection.py `normalize_label`,
`pick_best` and the primary selection pass of `detect_schema`) -/

/-- Character class `[a-z0-9]` of `normalize_label`. -/
def isLowerAlnum (c : Char) : Bool :=
  ('a' ≤ c && c ≤ 'z') || c.isDigit

/-- Maximal lowercased alphanumeric runs of a label.  Replacing every
run of other characters by one space and stripping (what
`re.sub(r"[^a-z0-9]+", " ", label.lower()).strip()` followed by
whitespace collapse does) is exactly joining these runs with single
spaces. -/
def labelTokensGo (cur : List Char) : List Char → List String
  | [] => if cur.isEmpty then [] else [⟨cur.reverse⟩]
  | c :: rest =>
    let lc := c.toLower
    if isLowerAlnum lc then labelTokensGo (lc :: cur) rest
    else (if cur.isEmpty then [] else [⟨cur.reverse⟩]) ++ labelTokensGo [] rest

/-- `normalize_label` (src/schema_detection.py). -/
def normalizeLabel (label : String) : String :=
  String.intercalate " " (labelTokensGo [] label.data)

/-- One raw source column: its name and its cells. -/
structure Column where
  name : String
  values : List (Option String)
  deriving DecidableEq, Repr

/-- Lookup of a column by name (`df[col]`; `pick_best` is only called
with candidate columns that exist in the frame). -/
def findCol (df : List Column) (name : String) : Option Column :=
  df.find? (fun c => c.name = name)

/-- `series.notna().sum()`. -/
def nonnullOf (df : List Column) (name : String) : Nat :=
  match findCol df name with
  | some c => (c.values.filter Option.isSome).length
  | none => 0

/-- `series.nunique(dropna=True)`. -/
def nuniqueOf (df : List Column) (name : String) : Nat :=
  match findCol df name with
  | some c => (c.values.filterMap id).dedup.length
  | none => 0

/-- The coexist-allowed roles of `pick_best`. -/
def COEXIST_FIELDS : List String :=
  ["FullName", "First_Name", "Last_Name", "Home_Phone", "Mobile_Phone",
   "Work_Phone", "Phone2"]

/-- The stable-sort comparison of `pick_best`,
`key=lambda x: (-x[1], len(header_norms[x[0]]))` ascending:
score descending, then shorter normalized header. -/
def pbLe (a b : String × Int) : Bool :=
  b.2 < a.2 || (a.2 = b.2 && (normalizeLabel a.1).length ≤ (normalizeLabel b.1).length)

/-- The ambiguity diagnostic of `pick_best` (`SchemaAmbiguityError`),
carrying the fields interpolated into the message: the canonical role,
both column names and both scores. -/
inductive PickErr where
  | ambiguity (canon best second : String) (bestScore secondScore : Int)
  deriving DecidableEq, Repr

/-- `pick_best(canon, pairs)` (src/schema_detection.py lines 315-340).
Python's `sorted` is a stable sort, hence produces `stableSort pbLe`. -/
def pickBest (df : List Column) (canon : String) (pairs : List (String × Int)) :
    Except PickErr (Option String) :=
  if pairs.isEmpty then .ok none
  else
    match stableSort pbLe pairs with
    | [] => .ok none
    | (bestCol, bestScore) :: rest =>
      if COEXIST_FIELDS.contains canon then .ok (some bestCol)
      else
        match rest with
        | [] => .ok (some bestCol)
        | (secondCol, secondScore) :: _ =>
          if (bestScore - secondScore).natAbs ≤ 2
              ∧ normalizeLabel bestCol ≠ normalizeLabel secondCol then
            let n1 := nonnullOf df bestCol
            let n2 := nonnullOf df secondCol
            if n1 ≠ n2 then .ok (some (if n1 > n2 then bestCol else secondCol))
            else
              let u1 := nuniqueOf df bestCol
              let u2 := nuniqueOf df secondCol
              if u1 ≠ u2 then .ok (some (if u1 > u2 then bestCol else secondCol))
              else .error (.ambiguity canon bestCol secondCol bestScore secondScore)
          else .ok (some bestCol)

/-- The primary selection pass of `detect_schema`
(`for canon, pairs in candidates.items(): chosen = pick_best(...)`);
a raised `SchemaAmbiguityError` aborts detection, so no mapping is
returned. -/
def selectMapping (df : List Column)
    (cands : List (String × List (String × Int))) :
    Except PickErr (List (String × String)) :=
  match cands with
  | [] => .ok []
  | (canon, pairs) :: rest =>
    match pickBest df canon pairs with
    | .error e => .error e
    | .ok none => selectMapping df rest
    | .ok (some col) => (selectMapping df rest).map (fun m => (canon, col) :: m)

/-! ### Phone normalization (src/preprocess.py `_normalize_phone_value`,
`_merge_area_code`) -/

/-- The trailing-extension search
`re.search(r"(?:ext\.?|x)\s*(\d{1,5})$", text, re.IGNORECASE)`.
A match exists exactly when the text ends in a digit run of length 1–5
preceded (after optional whitespace) by `x`, `ext` or `ext.` in any case;
the captured group is that digit run. -/
def extOf (text : String) : Option String :=
  let rcs := text.data.reverse
  let rrun := rcs.takeWhile Char.isDigit
  if rrun.length = 0 || rrun.length > 5 then none
  else
    let low := ((rcs.drop rrun.length).dropWhile pyWs).map Char.toLower
    if ['x'].isPrefixOf low || ['.', 't', 'x', 'e'].isPrefixOf low
        || ['t', 'x', 'e'].isPrefixOf low then
      some ⟨rrun.reverse⟩
    else none

/-- `re.sub(r"\D", "", text)`: every digit of the raw text (note: this
includes the digits of a trailing extension). -/
def digitsOf (text : String) : List Char :=
  text.data.filter Char.isDigit

/-- The last `n` characters (`digits[-10:]`). -/
def lastN (n : Nat) (cs : List Char) : List Char :=
  cs.drop (cs.length - n)

/-- The body formatting of `_normalize_phone_value`: 10 digits as
`AAA-NNN-NNNN`, 7 as `NNN-NNNN`, anything else left as the digit string. -/
def phoneFmt (core : List Char) : String :=
  if core.length = 10 then
    (⟨core.take 3⟩ : String) ++ "-" ++ (⟨(core.drop 3).take 3⟩ : String)
      ++ "-" ++ (⟨core.drop 6⟩ : String)
  else if core.length = 7 then
    (⟨core.take 3⟩ : String) ++ "-" ++ (⟨core.drop 3⟩ : String)
  else (⟨core⟩ : String)

/-- The re-appended extension text (`f"{out} x{ext}"` when present). -/
def extSuffix (text : String) : String :=
  match extOf text with
  | some e => " x" ++ e
  | none => ""

/-- `_normalize_phone_value(value)`. -/
def normalizePhoneValue (value : Option String) : String :=
  match value with
  | none => ""
  | some text =>
    let digits := digitsOf text
    let core := if digits.length ≥ 10 then lastN 10 digits else digits
    phoneFmt core ++ extSuffix text

/-- `re.fullmatch(r"\d{3}-\d{4}", s)`. -/
def shape7 (s : String) : Bool :=
  match s.data with
  | [a, b, c, '-', d, e, f, g] => [a, b, c, d, e, f, g].all Char.isDigit
  | _ => false

/-- One cell of `_merge_area_code`: normalize the number; when it took
the 7-digit form and the (safe-stripped) area-code cell holds exactly 3
digits, prepend them. -/
def mergeAreaCode (aRaw nRaw : String) : String :=
  let nNorm := normalizePhoneValue (some nRaw)
  if shape7 nNorm then
    let aDigits := digitsOf aRaw
    if aDigits.length = 3 then (⟨aDigits⟩ : String) ++ "-" ++ nNorm else nNorm
  else nNorm

/-! ### Two-pass deduplication (src/filters.py `delete_duplicates`)

The canonical frame always carries the VIN, Deal_Number and address
columns (possibly as all-`None`), so the column-presence guards of the
source are true; the `vin_valid.any()` / `addr_mask.any()` /
`if prune_addr_keys` guards only skip work that is a no-op when the
respective set is empty, and are embedded by the unguarded composition.
`sort_values` uses `na_position='last'`, so a missing Effective Date
ranks greatest, while the `-inf`-filled Deal_Number ranks least;
`groupby(key).tail(1)` after sorting by the key first keeps the last
element of every contiguous key run. -/

/-- A working row: the `___ORDER` position plus the record. -/
structure WRow where
  order : Nat
  row : Row
  deriving DecidableEq, Repr

/-- `_safe_str(work["VIN"]).str.upper()` as characters. -/
def vinUpChars (r : Row) : List Char :=
  (pyUpper (safeStr r.vin)).data

/-- Character class `[A-HJ-NPR-Z0-9]` of the strict VIN pattern, on the
already-uppercased text. -/
def vinAllowedChar (c : Char) : Bool :=
  c.isDigit || (c.isUpper && !(c = 'I' || c = 'O' || c = 'Q'))

/-- `VIN_RE.fullmatch` on the uppercased VIN: 17 characters of the
restricted class (the `\b` anchors are implied by the class). -/
def vinValid (r : Row) : Bool :=
  (vinUpChars r).length = 17 && (vinUpChars r).all vinAllowedChar

/-- `__HAS_DEAL`: `_safe_str(Deal_Number).ne("")`. -/
def hasDeal (r : Row) : Bool :=
  safeStr r.dealNumber ≠ ""

/-- `pd.to_numeric(..., errors="coerce")` on one cell: as `float(...)`
except that underscored digit groups are rejected. -/
def pyToNumeric (s : String) : Option ℚ :=
  if s.data.contains '_' then none else pyFloat s

/-- `__DN_NUM`: the numeric Deal_Number. -/
def dnNum (r : Row) : Option ℚ :=
  pyToNumeric (safeStr r.dealNumber)

/-- Sort code of `___DATE`: `NaT` ranks last (greatest). -/
def dateCode : Option Int → Lex (Bool × Int)
  | none => toLex (true, 0)
  | some d => toLex (false, d)

/-- Sort code of `__DN_NUM_FILLED`: missing (`-inf`-filled) ranks least. -/
def dnCode : Option ℚ → Lex (Bool × ℚ)
  | none => toLex (false, 0)
  | some q => toLex (true, q)

/-- The non-grouping part of the sort key:
(`___DATE`, `__HAS_DEAL`, `__DN_NUM_FILLED`, `___ORDER`), ascending. -/
abbrev RestKey := Lex ((Lex (Bool × Int)) × Lex (Bool × Lex ((Lex (Bool × ℚ)) × Nat)))

/-- The full lexicographic sort key: group key first. -/
abbrev DedupKey := Lex ((List Char) × RestKey)

/-- The tie-break part of a working row's key. -/
def restKey (w : WRow) : RestKey :=
  toLex (dateCode (effDate w.row),
    toLex (hasDeal w.row, toLex (dnCode (dnNum w.row), w.order)))

/-- The sort key for a grouping function. -/
def sortKey (gk : Row → List Char) (w : WRow) : DedupKey :=
  toLex (gk w.row, restKey w)

/-- The boolean comparison used by the stable sort. -/
def keyLe (gk : Row → List Char) (a b : WRow) : Bool :=
  decide (sortKey gk a ≤ sortKey gk b)

/-- Pass-1 grouping key `___VIN_UP`. -/
def gkVin (r : Row) : List Char := vinUpChars r

/-- The row's Address Key (`_normalize_address_key` on its four cells). -/
def addrKey (r : Row) : String :=
  normalizeAddressKey r.address1 r.city r.state r.zip

/-- Pass-2 grouping key `___ADDR_KEY` as characters. -/
def gkAddr (r : Row) : List Char := (addrKey r).data

/-- `groupby(gk, sort=False).tail(1)` on a list sorted by `gk` first:
keep the last element of every contiguous group run. -/
def tailPerGroup (gk : Row → List Char) : List WRow → List WRow
  | [] => []
  | [x] => [x]
  | x :: y :: rest =>
    if gk x.row = gk y.row then tailPerGroup gk (y :: rest)
    else x :: tailPerGroup gk (y :: rest)

/-- The working frame: rows tagged with `___ORDER = range(len(work))`. -/
def workOf (df : List Row) : List WRow :=
  df.enum.map (fun p => ⟨p.1, p.2⟩)

/-- `work.loc[vin_valid]`. -/
def withVin (df : List Row) : List WRow :=
  (workOf df).filter (fun w => vinValid w.row)

/-- `work.loc[~vin_valid]`. -/
def withoutVin (df : List Row) : List WRow :=
  (workOf df).filter (fun w => !vinValid w.row)

/-- `with_vin_sorted` (pass 1). -/
def sortedVin (df : List Row) : List WRow :=
  stableSort (keyLe gkVin) (withVin df)

/-- `with_vin_dedup = with_vin_sorted.groupby("___VIN_UP").tail(1)`. -/
def survVin (df : List Row) : List WRow :=
  tailPerGroup gkVin (sortedVin df)

/-- `dropped_vin`: pass-1 rows not among the survivors (index-based;
positions are unique, so value membership coincides). -/
def droppedVin (df : List Row) : List WRow :=
  (withVin df).filter (fun w => decide (w ∉ survVin df))

/-- `remaining_after_vin = pd.concat([with_vin_dedup, without_vin])`. -/
def remainingAfterVin (df : List Row) : List WRow :=
  survVin df ++ withoutVin df

/-- `pandas` group max of a list of dates (`NaT` entries were dropped by
the caller). -/
def listMax : List Int → Option Int
  | [] => none
  | x :: xs =>
    match listMax xs with
    | none => some x
    | some m => some (max x m)

/-- `max_date_by_addr.get(k, NaT)`: the max date among remaining rows of
Address Key `k`, `none` when the group is absent or all-`NaT`. -/
def remMaxAt (df : List Row) (k : List Char) : Option Int :=
  listMax ((remainingAfterVin df).filterMap
    (fun w => if gkAddr w.row = k then effDate w.row else none))

/-- `prune_addr_keys`: keys of pass-1-dropped rows whose date is present
and strictly newer than the remaining maximum at that key (or whose
remaining maximum is missing). -/
def pruneKeys (df : List Row) : List (List Char) :=
  (droppedVin df).filterMap (fun w =>
    let k := gkAddr w.row
    if k = [] then none
    else
      match effDate w.row with
      | none => none
      | some d =>
        match remMaxAt df k with
        | none => some k
        | some m => if d > m then some k else none)

/-- `work.loc[addr_mask]`: remaining rows with a nonempty Address Key
(the mask is the same row-wise function of the address cells). -/
def withAddrBase (df : List Row) : List WRow :=
  (remainingAfterVin df).filter (fun w => !(gkAddr w.row).isEmpty)

/-- `with_addr` after the pruning step (`if prune_addr_keys:`). -/
def withAddr (df : List Row) : List WRow :=
  if (pruneKeys df).isEmpty then withAddrBase df
  else (withAddrBase df).filter (fun w => decide (gkAddr w.row ∉ pruneKeys df))

/-- `without_addr`. -/
def withoutAddr (df : List Row) : List WRow :=
  (remainingAfterVin df).filter (fun w => (gkAddr w.row).isEmpty)

/-- `with_addr_sorted` (pass 2). -/
def sortedAddr (df : List Row) : List WRow :=
  stableSort (keyLe gkAddr) (withAddr df)

/-- `with_addr_dedup`. -/
def survAddr (df : List Row) : List WRow :=
  tailPerGroup gkAddr (sortedAddr df)

/-- The final working frame `pd.concat([with_addr_dedup, without_addr])`. -/
def dedupOut (df : List Row) : List WRow :=
  survAddr df ++ withoutAddr df

/-- `delete_duplicates(df_can)`: the deduplicated table (helper columns
dropped) and `initial - len(work)`. -/
def deleteDuplicates (df : List Row) : List Row × Nat :=
  if df.length = 0 then (df, 0)
  else ((dedupOut df).map WRow.row, df.length - (dedupOut df).length)

/-- Example rows for the concrete model-year scenario. -/
def yrRow (s : String) : Row := { year := some s }

/-- A row holding only a Distance cell. -/
def distRow (s : String) : Row := { distance := some s }

/-- The "ABC Motors LLC" example row (the canonicalizer derives FullName;
with no First/Last the raw FullName is used, see `derive_fullname`). -/
def abcMotorsRow : Row := { fullName := some "ABC Motors LLC" }

/-- The "John Smith" example row. -/
def johnSmithRow : Row :=
  { firstName := some "John", lastName := some "Smith",
    fullName := some "John Smith" }

/-- A title-cased person whose surname contains the brand "AVIS". -/
def davisRow : Row :=
  { firstName := some "Daniel", lastName := some "Davis",
    fullName := some "Daniel Davis" }

/-- Two-column frame with equal non-null and distinct counts. -/
def tiedDf : List Column :=
  [⟨"Col A", [some "x"]⟩, ⟨"Col B", [some "y"]⟩]

/-- Candidate pairs with scores 90 and 89 (within epsilon 2). -/
def tiedPairs : List (String × Int) := [("Col A", 90), ("Col B", 89)]

/-- The strictly-valid example VIN used by the concrete scenarios. -/
def exVin : Option String := some "1HGCM82633A004352"

/-- Dated row of the date-less-survivor scenario. -/
def dtRowDated : Row := { vin := exVin, deliveryDate := some 100 }

/-- Date-less row of the date-less-survivor scenario. -/
def dtRowDateless : Row := { vin := exVin }

/-- Prune-scenario rows: two rows share a VIN at one address (the dated
one is dropped in pass 1, and is newer than everything remaining at that
address); a VIN-less row lives at another address. -/
def pruneRow0 : Row :=
  { vin := exVin, deliveryDate := some 100, address1 := some "1 Main St",
    city := some "Tampa", state := some "FL", zip := some "33601" }

/-- The date-less pass-1 survivor at the pruned address. -/
def pruneRow1 : Row :=
  { vin := exVin, address1 := some "1 Main St", city := some "Tampa",
    state := some "FL", zip := some "33601" }

/-- A VIN-less row at a different address, surviving everything. -/
def pruneRow2 : Row :=
  { address1 := some "2 Oak Ave", city := some "Tampa", state := some "FL",
    zip := some "33601" }

/-- The prune-scenario table. -/
def dfPrune : List Row := [pruneRow0, pruneRow1, pruneRow2]

/-- Recency-scenario rows: same VIN and address, dates 100 and 300. -/
def recRow0 : Row :=
  { vin := exVin, deliveryDate := some 100, address1 := some "1 Main St",
    city := some "Tampa", state := some "FL", zip := some "33601" }

/-- The newer recency-scenario row. -/
def recRow1 : Row :=
  { vin := exVin, deliveryDate := some 300, address1 := some "1 Main St",
    city := some "Tampa", state := some "FL", zip := some "33601" }

/-- The recency-scenario table. -/
def dfRec : List Row := [recRow0, recRow1]

theorem stableInsert_perm (le : α → α → Bool) (x : α) (l : List α) :
    List.Perm (stableInsert le x l) (x :: l) := by
  induction l with
  | nil => rfl
  | cons y ys ih =>
    rw [stableInsert]
    by_cases h : le x y
    · rw [if_pos h]
    · rw [if_neg h]
      exact (ih.cons y).trans (List.Perm.swap x y ys)

theorem stableSort_perm (le : α → α → Bool) (l : List α) :
    List.Perm (stableSort le l) l := by
  induction l with
  | nil => rfl
  | cons x xs ih =>
    exact (stableInsert_perm le x (stableSort le xs)).trans (ih.cons x)

theorem mem_stableSort (le : α → α → Bool) {x : α} {l : List α} :
    x ∈ stableSort le l ↔ x ∈ l :=
  (stableSort_perm le l).mem_iff

theorem length_stableSort (le : α → α → Bool) (l : List α) :
    (stableSort le l).length = l.length :=
  (stableSort_perm le l).length_eq

theorem pairwise_stableInsert (le : α → α → Bool)
    (trans : ∀ a b c, le a b = true → le b c = true → le a c = true)
    (total : ∀ a b, le a b || le b a) (x : α) (l : List α)
    (hl : l.Pairwise (fun a b => le a b = true)) :
    (stableInsert le x l).Pairwise (fun a b => le a b = true) := by
  induction l with
  | nil => simp [stableInsert]
  | cons y ys ih =>
    rw [stableInsert]
    rcases List.pairwise_cons.mp hl with ⟨hy, hys⟩
    by_cases h : le x y = true
    · rw [if_pos h]
      refine List.pairwise_cons.mpr ⟨?_, hl⟩
      intro b hb
      rcases List.mem_cons.mp hb with rfl | hb
      · exact h
      · exact trans x y b h (hy b hb)
    · rw [if_neg h]
      refine List.pairwise_cons.mpr ⟨?_, ih hys⟩
      intro b hb
      have hb' := (stableInsert_perm le x ys).mem_iff.mp hb
      rcases List.mem_cons.mp hb' with heq | hb'
      · subst heq
        rcases Bool.or_eq_true_iff.mp (total b y) with h3 | h3
        · exact absurd h3 h
        · exact h3
      · exact hy b hb'

theorem pairwise_stableSort (le : α → α → Bool)
    (trans : ∀ a b c, le a b = true → le b c = true → le a c = true)
    (total : ∀ a b, le a b || le b a) (l : List α) :
    (stableSort le l).Pairwise (fun a b => le a b = true) := by
  induction l with
  | nil => exact List.Pairwise.nil
  | cons x xs ih =>
    exact pairwise_stableInsert le trans total x (stableSort le xs) ih



theorem mem_filterModelYear_newer (df : List Row) (b : Int) (r : Row) :
    r ∈ (filterModelYear df "newer" (some b)).1 ↔
      r ∈ df ∧ ∃ y, yearToInt r.year = some y ∧ b < y := by
  simp only [filterModelYear, List.mem_filter]
  constructor
  · rintro ⟨hr, hk⟩
    refine ⟨hr, ?_⟩
    cases h : yearToInt r.year with
    | none => simp [h] at hk
    | some yy =>
      simp only [h, if_pos rfl] at hk
      exact ⟨yy, rfl, by simpa using hk⟩
  · rintro ⟨hr, y, hy, hb⟩
    exact ⟨hr, by simp [hy, hb]⟩

theorem mem_filterModelYear_older (df : List Row) (b : Int) (r : Row) :
    r ∈ (filterModelYear df "older" (some b)).1 ↔
      r ∈ df ∧ ∃ y, yearToInt r.year = some y ∧ y < b := by
  simp only [filterModelYear, List.mem_filter]
  constructor
  · rintro ⟨hr, hk⟩
    refine ⟨hr, ?_⟩
    cases h : yearToInt r.year with
    | none => simp [h] at hk
    | some yy =>
      simp only [h] at hk
      exact ⟨yy, rfl, by simpa using hk⟩
  · rintro ⟨hr, y, hy, hb⟩
    refine ⟨hr, ?_⟩
    simp [hy, hb]

/-- C5: with the model-year window enabled with bounds `min_year` and
`max_year`, a row is kept iff its Year parses as an integer `y` with
`min_year ≤ y ≤ max_year` (inclusive window); unparseable years are
excluded.  With min=2013, max=2024: Year=2012 removed, 2013 kept,
2024 kept, 2025 removed. -/
theorem modelYear_window_inclusive :
    (∀ (df : List Row) (miny maxy : Int) (r : Row),
      r ∈ modelYearWindow df miny maxy ↔
        r ∈ df ∧ ∃ y, yearToInt r.year = some y ∧ miny ≤ y ∧ y ≤ maxy) ∧
    modelYearWindow [yrRow "2012", yrRow "2013", yrRow "2024", yrRow "2025"]
        2013 2024 = [yrRow "2013", yrRow "2024"] := by
  constructor
  · intro df miny maxy r
    unfold modelYearWindow
    rw [mem_filterModelYear_older, mem_filterModelYear_newer]
    constructor
    · rintro ⟨⟨hr, y, hy, h1⟩, y', hy', h2⟩
      rw [hy] at hy'
      obtain rfl : y = y' := by injection hy'
      exact ⟨hr, y, hy, by omega, by omega⟩
    · rintro ⟨hr, y, hy, h1, h2⟩
      exact ⟨⟨hr, y, hy, by omega⟩, y, hy, by omega⟩
  · decide

/-- C6: the distance filter masks unparseable or `> 1000` distances as
missing; if fewer than 5% of rows have a valid distance the stage is a
no-op `(df, 0)`; otherwise exactly the rows with distance `≤ max_miles`
or missing/invalid distance are kept.  With `max_miles = 100`, a row with
Distance "150" is removed and a row with missing Distance is kept. -/
theorem distance_gate_and_threshold :
    (∀ (df : List Row) (maxMiles : ℚ),
      20 * distValidCount df < df.length → filterDistance df maxMiles = (df, 0)) ∧
    (∀ (df : List Row) (maxMiles : ℚ) (r : Row),
      ¬ 20 * distValidCount df < df.length →
      (r ∈ (filterDistance df maxMiles).1 ↔
        r ∈ df ∧ (distMiles r = none ∨ ∃ m, distMiles r = some m ∧ m ≤ maxMiles))) ∧
    filterDistance [distRow "150", {}] 100 = ([{}], 1) := by
  refine ⟨?_, ?_, ?_⟩
  · intro df maxMiles h
    simp [filterDistance, h]
  · intro df maxMiles r h
    simp only [filterDistance, if_neg h, List.mem_filter]
    constructor
    · rintro ⟨hr, hk⟩
      refine ⟨hr, ?_⟩
      cases hm : distMiles r with
      | none => exact Or.inl rfl
      | some m =>
        right
        refine ⟨m, rfl, ?_⟩
        simp only [hm] at hk
        simpa using hk
    · rintro ⟨hr, hc⟩
      refine ⟨hr, ?_⟩
      rcases hc with hn | ⟨m, hm, hle⟩
      · simp [hn]
      · simp [hm, hle]
  · decide

/-- Witness for `distance_gate_and_threshold`: the gate hypothesis holds
for a one-row table with no valid distance, and the threshold branch for
the concrete two-row table. -/
theorem distance_gate_and_threshold_witness :
    filterDistance [{}] 100 = ([{}], 0) ∧
    (({} : Row) ∈ (filterDistance [distRow "150", {}] 100).1 ↔
      ({} : Row) ∈ [distRow "150", {}] ∧
        (distMiles {} = none ∨ ∃ m, distMiles {} = some m ∧ m ≤ 100)) :=
  ⟨distance_gate_and_threshold.1 [{}] 100 (by decide),
   distance_gate_and_threshold.2.1 [distRow "150", {}] 100 {} (by decide)⟩

/-- C3: any brand/OEM/keyword/suffix hit in the name fields force-excludes
the row regardless of numeric score; absent a forced hit, exactly the
rows whose accumulated score reaches the threshold 3 are excluded;
FullName "ABC Motors LLC" is excluded, First "John"/Last "Smith" with no
hits is kept. -/
theorem corporate_force_and_threshold :
    (∀ (df : List Row) (r : Row),
      corpForcedHit r = true → r ∉ (filterCorporate df).1) ∧
    (∀ (df : List Row) (r : Row),
      corpForcedHit r = false →
      (r ∈ (filterCorporate df).1 ↔ r ∈ df ∧ corpBaseScore r < 3)) ∧
    filterCorporate [abcMotorsRow, johnSmithRow] = ([johnSmithRow], 1) := by
  refine ⟨?_, ?_, ?_⟩
  · intro df r hf hm
    rw [filterCorporate] at hm
    simp only [List.mem_filter] at hm
    have : corpRowScore r = 999 := by simp [corpRowScore, hf]
    rw [this] at hm
    exact absurd hm.2 (by decide)
  · intro df r hf
    rw [filterCorporate]
    simp only [List.mem_filter, corpRowScore, hf]
    simp
  · decide

/-- Witness for `corporate_force_and_threshold`, discharging both
hypotheses at the concrete example rows. -/
theorem corporate_force_and_threshold_witness :
    abcMotorsRow ∉ (filterCorporate [abcMotorsRow]).1 ∧
    (johnSmithRow ∈ (filterCorporate [johnSmithRow]).1 ↔
      johnSmithRow ∈ [johnSmithRow] ∧ corpBaseScore johnSmithRow < 3) :=
  ⟨corporate_force_and_threshold.1 [abcMotorsRow] abcMotorsRow (by decide),
   corporate_force_and_threshold.2.1 [johnSmithRow] johnSmithRow (by decide)⟩

/-- C10: brand/OEM/keyword hits of the forced rule are raw substring
containment in the uppercased name texts, so any row whose name text
contains such a token anywhere — e.g. the surname "Davis", which contains
the brand "AVIS" — is excluded even when First and Last are title-cased
person-like names. -/
theorem corporate_substring_containment_force :
    (∀ (df : List Row) (r : Row),
      corpSubstringHit r = true → r ∉ (filterCorporate df).1) ∧
    corpPersonLike davisRow = true ∧
    strContains (pyUpper (textFirstLast davisRow)) "AVIS" = true ∧
    filterCorporate [davisRow] = ([], 1) := by
  refine ⟨?_, by decide, by decide, by decide⟩
  intro df r hf hm
  rw [filterCorporate] at hm
  simp only [List.mem_filter] at hm
  have : corpRowScore r = 999 := by
    simp [corpRowScore, corpForcedHit, hf]
  rw [this] at hm
  exact absurd hm.2 (by decide)

/-- Witness for `corporate_substring_containment_force` at the Davis row. -/
theorem corporate_substring_containment_force_witness :
    davisRow ∉ (filterCorporate [davisRow]).1 :=
  corporate_substring_containment_force.1 [davisRow] davisRow (by decide)

theorem selectMapping_error_of_mem (df : List Column) (canon : String)
    (pairs : List (String × Int))
    (h : ∃ e, pickBest df canon pairs = .error e) :
    ∀ cands, (canon, pairs) ∈ cands → ∃ e, selectMapping df cands = .error e := by
  intro cands hmem
  induction cands with
  | nil => cases hmem
  | cons hd tl ih =>
    obtain ⟨c0, p0⟩ := hd
    rcases List.mem_cons.mp hmem with heq | htl
    · obtain ⟨rfl, rfl⟩ := Prod.mk.inj heq
      obtain ⟨e, he⟩ := h
      exact ⟨e, by simp [selectMapping, he]⟩
    · obtain ⟨e, he⟩ := ih htl
      cases hpb : pickBest df c0 p0 with
      | error e0 => exact ⟨e0, by simp [selectMapping, hpb]⟩
      | ok v =>
        cases v with
        | none => exact ⟨e, by simp [selectMapping, hpb, he]⟩
        | some col => exact ⟨e, by simp [selectMapping, hpb, he, Except.map]⟩

/-- C4: for a non-coexisting canonical field, when the two best-scoring
candidates (in the stable score-descending, shorter-header order) have
distinct normalized headers and scores within epsilon 2, selection falls
to the column with more non-null values, then more distinct values; if
both counts tie, `pick_best` fails with an ambiguity error naming both
columns and their scores, and the selection pass returns no mapping. -/
theorem pick_best_close_scores :
    ∀ (df : List Column) (canon : String) (pairs : List (String × Int))
      (c1 c2 : String) (s1 s2 : Int) (rest : List (String × Int)),
      stableSort pbLe pairs = (c1, s1) :: (c2, s2) :: rest →
      COEXIST_FIELDS.contains canon = false →
      (s1 - s2).natAbs ≤ 2 →
      normalizeLabel c1 ≠ normalizeLabel c2 →
      ((nonnullOf df c1 ≠ nonnullOf df c2 →
         pickBest df canon pairs =
           .ok (some (if nonnullOf df c1 > nonnullOf df c2 then c1 else c2))) ∧
       (nonnullOf df c1 = nonnullOf df c2 → nuniqueOf df c1 ≠ nuniqueOf df c2 →
         pickBest df canon pairs =
           .ok (some (if nuniqueOf df c1 > nuniqueOf df c2 then c1 else c2))) ∧
       (nonnullOf df c1 = nonnullOf df c2 → nuniqueOf df c1 = nuniqueOf df c2 →
         pickBest df canon pairs = .error (.ambiguity canon c1 c2 s1 s2) ∧
         ∀ cands, (canon, pairs) ∈ cands →
           ∃ e, selectMapping df cands = Except.error e)) := by
  intro df canon pairs c1 c2 s1 s2 rest hsort hco heps hne
  have hpe : pairs.isEmpty = false := by
    cases pairs with
    | nil => simp [stableSort] at hsort
    | cons a l => rfl
  have hnc : ¬ (COEXIST_FIELDS.contains canon = true) := by
    rw [hco]
    exact Bool.false_ne_true
  have hpb : pickBest df canon pairs =
      (if nonnullOf df c1 ≠ nonnullOf df c2 then
        Except.ok (some (if nonnullOf df c1 > nonnullOf df c2 then c1 else c2))
      else
        if nuniqueOf df c1 ≠ nuniqueOf df c2 then
          Except.ok (some (if nuniqueOf df c1 > nuniqueOf df c2 then c1 else c2))
        else Except.error (.ambiguity canon c1 c2 s1 s2)) := by
    rw [pickBest, hpe]
    rw [if_neg (by simp)]
    rw [hsort]
    dsimp only
    rw [if_neg hnc, if_pos ⟨heps, hne⟩]
  rw [hpb]
  refine ⟨?_, ?_, ?_⟩
  · intro hnn
    rw [if_pos hnn]
  · intro hnneq hu
    rw [if_neg (not_not_intro hnneq), if_pos hu]
  · intro hnneq hueq
    rw [if_neg (not_not_intro hnneq), if_neg (not_not_intro hueq)]
    refine ⟨rfl, ?_⟩
    apply selectMapping_error_of_mem
    exact ⟨PickErr.ambiguity canon c1 c2 s1 s2, by
      rw [hpb, if_neg (not_not_intro hnneq), if_neg (not_not_intro hueq)]⟩

/-- Witness for `pick_best_close_scores`: a concrete tied pair makes
`pick_best` fail with the ambiguity error and the selection pass abort. -/
theorem pick_best_close_scores_witness :
    pickBest tiedDf "Store" tiedPairs =
      .error (.ambiguity "Store" "Col A" "Col B" 90 89) ∧
    ∃ e, selectMapping tiedDf [("Store", tiedPairs)] = Except.error e := by
  have h := (pick_best_close_scores tiedDf "Store" tiedPairs "Col A" "Col B"
      90 89 [] (by decide) (by decide) (by decide) (by decide)).2.2
      (by decide) (by decide)
  exact ⟨h.1, h.2 [("Store", tiedPairs)] (by simp)⟩

theorem lastN_length_of_ge {n : Nat} {cs : List Char} (h : n ≤ cs.length) :
    (lastN n cs).length = n := by
  simp [lastN]
  omega

/-- C7: phone normalization strips non-digits, preserves a trailing
`ext.`/`x` digit extension separately, keeps the last 10 digits when 10+
are present, formats 10 digits as `AAA-NNN-NNNN` and 7 as `NNN-NNNN`,
otherwise leaves the digit string, and re-appends the extension; a 3-digit
area-code cell is prepended to a number that normalized to the 7-digit
form, giving the 10-digit form. -/
theorem phone_normalization_shape :
    (∀ t : String, 10 ≤ (digitsOf t).length →
      normalizePhoneValue (some t) =
        (⟨(lastN 10 (digitsOf t)).take 3⟩ : String) ++ "-"
          ++ (⟨((lastN 10 (digitsOf t)).drop 3).take 3⟩ : String) ++ "-"
          ++ (⟨(lastN 10 (digitsOf t)).drop 6⟩ : String) ++ extSuffix t) ∧
    (∀ t : String, (digitsOf t).length = 7 →
      normalizePhoneValue (some t) =
        (⟨(digitsOf t).take 3⟩ : String) ++ "-"
          ++ (⟨(digitsOf t).drop 3⟩ : String) ++ extSuffix t) ∧
    (∀ t : String, (digitsOf t).length < 10 → (digitsOf t).length ≠ 7 →
      normalizePhoneValue (some t) = (⟨digitsOf t⟩ : String) ++ extSuffix t) ∧
    (∀ aRaw nRaw : String,
      shape7 (normalizePhoneValue (some nRaw)) = true →
      (digitsOf aRaw).length = 3 →
      mergeAreaCode aRaw nRaw =
        (⟨digitsOf aRaw⟩ : String) ++ "-" ++ normalizePhoneValue (some nRaw)) ∧
    normalizePhoneValue (some "1 (813) 555-1234") = "813-555-1234" ∧
    normalizePhoneValue (some "555-1234 x89") = "555123489 x89" ∧
    mergeAreaCode "813" "555-1234" = "813-555-1234" := by
  refine ⟨?_, ?_, ?_, ?_, by decide, by decide, by decide⟩
  · intro t h
    have hlen : (lastN 10 (digitsOf t)).length = 10 := lastN_length_of_ge h
    simp only [normalizePhoneValue, if_pos h, phoneFmt, hlen]
    simp [String.append_assoc]
  · intro t h
    have hlt : ¬ 10 ≤ (digitsOf t).length := by omega
    simp only [normalizePhoneValue, if_neg hlt, phoneFmt]
    rw [if_neg (by omega), if_pos h]
  · intro t h h7
    have hlt : ¬ 10 ≤ (digitsOf t).length := by omega
    simp only [normalizePhoneValue, if_neg hlt, phoneFmt]
    rw [if_neg (by omega), if_neg h7]
  · intro aRaw nRaw hs ha
    simp only [mergeAreaCode, hs, if_pos rfl, ha]
    simp

/-- Witness for `phone_normalization_shape`, discharging each clause's
hypotheses at concrete inputs. -/
theorem phone_normalization_shape_witness :
    normalizePhoneValue (some "1 (813) 555-1234") =
      (⟨(lastN 10 (digitsOf "1 (813) 555-1234")).take 3⟩ : String) ++ "-"
        ++ (⟨((lastN 10 (digitsOf "1 (813) 555-1234")).drop 3).take 3⟩ : String) ++ "-"
        ++ (⟨(lastN 10 (digitsOf "1 (813) 555-1234")).drop 6⟩ : String)
        ++ extSuffix "1 (813) 555-1234" ∧
    normalizePhoneValue (some "555-1234") =
      (⟨(digitsOf "555-1234").take 3⟩ : String) ++ "-"
        ++ (⟨(digitsOf "555-1234").drop 3⟩ : String) ++ extSuffix "555-1234" ∧
    normalizePhoneValue (some "12345") =
      (⟨digitsOf "12345"⟩ : String) ++ extSuffix "12345" ∧
    mergeAreaCode "813" "555-1234" =
      (⟨digitsOf "813"⟩ : String) ++ "-" ++ normalizePhoneValue (some "555-1234") :=
  ⟨phone_normalization_shape.1 "1 (813) 555-1234" (by decide),
   phone_normalization_shape.2.1 "555-1234" (by decide),
   phone_normalization_shape.2.2.1 "12345" (by decide) (by decide),
   phone_normalization_shape.2.2.2.1 "813" "555-1234" (by decide) (by decide)⟩

/-- C8 counterexample: address-component normalization is NOT idempotent.
`"X_APT"` normalizes to `"X APT"` (the underscore shields `APT` from the
word-boundary unit-token sub, then is stripped as punctuation), and a
second normalization rewrites the now-exposed `APT` to `UNIT`. -/
theorem address_norm_not_idempotent :
    normComponent (normComponent "X_APT") ≠ normComponent "X_APT" ∧
    normComponent "X_APT" = "X APT" ∧
    normComponent "X APT" = "X UNIT" := by decide

/-- C8 (amended): the Address Key is the empty string exactly when some
normalized component (or the 5-digit Zip) is empty, and otherwise the
4-part `|`-joined normalized string; a component that is already in
normal form — unchanged by strip, uppercasing, the PO-Box and unit-token
canonicalization passes, punctuation removal and whitespace collapse —
is returned unchanged by the normalization.  (The originally claimed
unrestricted idempotence fails; normalization's own output need not be
in normal form, see `address_norm_not_idempotent`.) -/
theorem address_key_shape_and_normal_form_fixed :
    (∀ a1 city st z : Option String,
      normalizeAddressKey a1 city st z = "" ↔
        (normCompOpt a1 = "" ∨ normCompOpt city = "" ∨ normCompOpt st = ""
          ∨ zip5Of z = [])) ∧
    (∀ a1 city st z : Option String,
      normCompOpt a1 ≠ "" → normCompOpt city ≠ "" → normCompOpt st ≠ "" →
      zip5Of z ≠ [] →
      normalizeAddressKey a1 city st z =
        normCompOpt a1 ++ "|" ++ normCompOpt city ++ "|" ++ normCompOpt st
          ++ "|" ++ (⟨zip5Of z⟩ : String)) ∧
    (∀ s : String, pyStrip s = s → pyUpper s = s → poSub s = s →
      unitSub s = s → punctSub s = s → collapseWs s = s →
      normComponent s = s) := by
  refine ⟨?_, ?_, ?_⟩
  · intro a1 city st z
    by_cases h : normCompOpt a1 ≠ "" ∧ normCompOpt city ≠ ""
        ∧ normCompOpt st ≠ "" ∧ zip5Of z ≠ []
    · rw [normalizeAddressKey, if_pos h]
      constructor
      · intro habs
        have hlen := congrArg String.length habs
        simp [String.length_append,
          show ("|" : String).length = 1 from rfl] at hlen
      · intro hc
        rcases h with ⟨h1, h2, h3, h4⟩
        rcases hc with hc | hc | hc | hc
        · exact absurd hc h1
        · exact absurd hc h2
        · exact absurd hc h3
        · exact absurd hc h4
    · rw [normalizeAddressKey, if_neg h]
      constructor
      · intro _
        by_contra hall
        push_neg at hall
        exact h ⟨hall.1, hall.2.1, hall.2.2.1, hall.2.2.2⟩
      · intro _
        rfl
  · intro a1 city st z h1 h2 h3 h4
    rw [normalizeAddressKey, if_pos ⟨h1, h2, h3, h4⟩]
  · intro s hst hup hpo hun hpu hco
    rw [normComponent, hst, hup, hpo, hun, hpu, hco, hst]

/-- Witness for `address_key_shape_and_normal_form_fixed` at a concrete
address and a concrete normal-form component. -/
theorem address_key_shape_and_normal_form_fixed_witness :
    normalizeAddressKey (some "123 Main St") (some "Tampa") (some "FL")
        (some "33601-1234") =
      normCompOpt (some "123 Main St") ++ "|" ++ normCompOpt (some "Tampa")
        ++ "|" ++ normCompOpt (some "FL") ++ "|"
        ++ (⟨zip5Of (some "33601-1234")⟩ : String) ∧
    normComponent "123 MAIN ST UNIT 5" = "123 MAIN ST UNIT 5" :=
  ⟨address_key_shape_and_normal_form_fixed.2.1 (some "123 Main St")
      (some "Tampa") (some "FL") (some "33601-1234")
      (by decide) (by decide) (by decide) (by decide),
   address_key_shape_and_normal_form_fixed.2.2 "123 MAIN ST UNIT 5"
      (by decide) (by decide) (by decide) (by decide) (by decide) (by decide)⟩

/-! ### Deduplication lemmas -/

theorem tailPerGroup_subset (gk : Row → List Char) :
    ∀ {l : List WRow} {s : WRow}, s ∈ tailPerGroup gk l → s ∈ l
  | [], s, h => by simp [tailPerGroup] at h
  | [x], s, h => by simpa [tailPerGroup] using h
  | x :: y :: rest, s, h => by
    rw [tailPerGroup] at h
    by_cases hg : gk x.row = gk y.row
    · rw [if_pos hg] at h
      exact List.mem_cons_of_mem x (tailPerGroup_subset gk h)
    · rw [if_neg hg] at h
      rcases List.mem_cons.mp h with rfl | h2
      · exact List.mem_cons_self _ _
      · exact List.mem_cons_of_mem x (tailPerGroup_subset gk h2)

theorem tailPerGroup_length_le (gk : Row → List Char) :
    ∀ l : List WRow, (tailPerGroup gk l).length ≤ l.length
  | [] => by simp [tailPerGroup]
  | [_] => by simp [tailPerGroup]
  | x :: y :: rest => by
    rw [tailPerGroup]
    by_cases hg : gk x.row = gk y.row
    · rw [if_pos hg]
      exact le_trans (tailPerGroup_length_le gk (y :: rest)) (by simp)
    · rw [if_neg hg]
      simpa using tailPerGroup_length_le gk (y :: rest)

theorem length_filter_add_length_filter_not (p : α → Bool) :
    ∀ l : List α,
      (l.filter p).length + (l.filter (fun x => !p x)).length = l.length
  | [] => rfl
  | x :: xs => by
    have ih := length_filter_add_length_filter_not p xs
    by_cases h : p x = true
    · simp only [List.filter_cons, h]
      simp
      omega
    · simp only [List.filter_cons, h, Bool.not_eq_true] at *
      simp [h]
      omega

theorem keyLe_trans (gk : Row → List Char) (a b c : WRow)
    (hab : keyLe gk a b = true) (hbc : keyLe gk b c = true) :
    keyLe gk a c = true := by
  simp only [keyLe, decide_eq_true_eq] at *
  exact le_trans hab hbc

theorem keyLe_total (gk : Row → List Char) (a b : WRow) :
    keyLe gk a b || keyLe gk b a := by
  simp only [keyLe]
  rcases le_total (sortKey gk a) (sortKey gk b) with h | h
  · simp [h]
  · simp [h]

theorem sortKey_le_group {gk : Row → List Char} {a b : WRow}
    (h : sortKey gk a ≤ sortKey gk b) : gk a.row ≤ gk b.row := by
  simp only [sortKey] at h
  rcases (Prod.Lex.le_iff _ _).mp h with h1 | ⟨h1, _⟩
  · exact le_of_lt h1
  · exact le_of_eq h1

theorem sortKey_group_lt {gk : Row → List Char} {a b : WRow}
    (h : sortKey gk a ≤ sortKey gk b) (hne : gk a.row ≠ gk b.row) :
    gk a.row < gk b.row := by
  simp only [sortKey] at h
  rcases (Prod.Lex.le_iff _ _).mp h with h1 | ⟨h1, _⟩
  · exact h1
  · exact absurd h1 hne

theorem restKey_le_of_group_eq {gk : Row → List Char} {a b : WRow}
    (h : sortKey gk a ≤ sortKey gk b) (he : gk a.row = gk b.row) :
    restKey a ≤ restKey b := by
  simp only [sortKey] at h
  rcases (Prod.Lex.le_iff _ _).mp h with h1 | ⟨_, h2⟩
  · rw [he] at h1
    exact absurd h1 (lt_irrefl _)
  · exact h2

theorem dateCode_le_of_restKey_le {a b : WRow} (h : restKey a ≤ restKey b) :
    dateCode (effDate a.row) ≤ dateCode (effDate b.row) := by
  simp only [restKey] at h
  rcases (Prod.Lex.le_iff _ _).mp h with h1 | ⟨h1, _⟩
  · exact le_of_lt h1
  · exact le_of_eq h1

theorem le_of_dateCode_some_le {m d : Int}
    (h : dateCode (some m) ≤ dateCode (some d)) : m ≤ d := by
  simp only [dateCode] at h
  rcases (Prod.Lex.le_iff _ _).mp h with h1 | ⟨_, h2⟩
  · exact absurd h1 (lt_irrefl _)
  · exact h2

theorem tailPerGroup_ge (gk : Row → List Char) {l : List WRow}
    (hp : l.Pairwise (fun a b => keyLe gk a b = true)) {s : WRow}
    (hs : s ∈ tailPerGroup gk l) :
    ∀ r ∈ l, gk r.row = gk s.row → sortKey gk r ≤ sortKey gk s := by
  induction l generalizing s with
  | nil => simp [tailPerGroup] at hs
  | cons x xs ih =>
    cases xs with
    | nil =>
      simp [tailPerGroup] at hs
      subst hs
      intro r hr _
      rcases List.mem_singleton.mp hr with rfl
      exact le_refl _
    | cons y rest =>
      rw [tailPerGroup] at hs
      rcases List.pairwise_cons.mp hp with ⟨hx, hp2⟩
      have hxy : sortKey gk x ≤ sortKey gk y := by
        simpa [keyLe, decide_eq_true_eq] using hx y (List.mem_cons_self _ _)
      by_cases hg : gk x.row = gk y.row
      · rw [if_pos hg] at hs
        intro r hr hgr
        rcases List.mem_cons.mp hr with rfl | hr2
        · have hy : gk y.row = gk s.row := by rw [← hg]; exact hgr
          exact le_trans hxy (ih hp2 hs y (List.mem_cons_self _ _) hy)
        · exact ih hp2 hs r hr2 hgr
      · rw [if_neg hg] at hs
        rcases List.mem_cons.mp hs with heq | hs2
        · subst heq
          intro r hr hgr
          rcases List.mem_cons.mp hr with rfl | hr2
          · exact le_refl _
          · exfalso
            have hxylt : gk s.row < gk y.row := sortKey_group_lt hxy hg
            rcases List.mem_cons.mp hr2 with rfl | hr3
            · rw [hgr] at hxylt
              exact lt_irrefl _ hxylt
            · have hyr : sortKey gk y ≤ sortKey gk r := by
                simpa [keyLe, decide_eq_true_eq] using
                  (List.pairwise_cons.mp hp2).1 r hr3
              have hle : gk y.row ≤ gk r.row := sortKey_le_group hyr
              rw [hgr] at hle
              exact absurd (lt_of_lt_of_le hxylt hle) (lt_irrefl _)
        · intro r hr hgr
          rcases List.mem_cons.mp hr with rfl | hr2
          · exfalso
            have hsmem : s ∈ y :: rest := tailPerGroup_subset gk hs2
            have hxylt : gk r.row < gk y.row := sortKey_group_lt hxy hg
            rcases List.mem_cons.mp hsmem with heq2 | hs3
            · rw [heq2] at hgr
              exact hg hgr
            · have hys : sortKey gk y ≤ sortKey gk s := by
                simpa [keyLe, decide_eq_true_eq] using
                  (List.pairwise_cons.mp hp2).1 s hs3
              have hle : gk y.row ≤ gk s.row := sortKey_le_group hys
              rw [← hgr] at hle
              exact absurd (lt_of_lt_of_le hxylt hle) (lt_irrefl _)
          · exact ih hp2 hs2 r hr2 hgr

theorem sortedAddr_pairwise (df : List Row) :
    (sortedAddr df).Pairwise (fun a b => keyLe gkAddr a b = true) :=
  pairwise_stableSort (keyLe gkAddr) (keyLe_trans gkAddr) (keyLe_total gkAddr)
    (withAddr df)

theorem listMax_mem : ∀ {l : List Int} {m : Int}, listMax l = some m → m ∈ l
  | [], m, h => by simp [listMax] at h
  | x :: xs, m, h => by
    rw [listMax] at h
    cases hx : listMax xs with
    | none =>
      rw [hx] at h
      injection h with h
      subst h
      exact List.mem_cons_self _ _
    | some mx =>
      rw [hx] at h
      injection h with h
      subst h
      rcases max_choice x mx with h2 | h2
      · rw [h2]; exact List.mem_cons_self _ _
      · rw [h2]; exact List.mem_cons_of_mem _ (listMax_mem hx)

/-- C1 (failing input): two rows share a strictly-valid VIN; one has an
Effective Date, the other none.  The claim requires the dated row to
survive (date-less rows ranked earliest, survivor's Effective Date equal
to the group maximum), but `sort_values` places `NaT` last
(`na_position='last'`), so the date-less row outranks every dated row
and survives with no Effective Date at all — contradicting the
function's own docstring "keep most recent DeliveryDate per group". -/
theorem dedupe_dateless_row_wins :
    deleteDuplicates [dtRowDated, dtRowDateless] = ([dtRowDateless], 1) ∧
    effDate dtRowDateless = none ∧
    effDate dtRowDated = some 100 ∧
    vinValid dtRowDated = true ∧
    vinValid dtRowDateless = true ∧
    gkVin dtRowDated = gkVin dtRowDateless := by decide

theorem withAddr_length_le (df : List Row) :
    (withAddr df).length ≤ (withAddrBase df).length := by
  rw [withAddr]
  by_cases hpe : (pruneKeys df).isEmpty
  · rw [if_pos hpe]
  · rw [if_neg hpe]
    exact List.length_filter_le _ _

theorem dedup_out_length_le (df : List Row) :
    (dedupOut df).length ≤ df.length := by
  have h1 : (survAddr df).length ≤ (withAddr df).length := by
    have h := tailPerGroup_length_le gkAddr (sortedAddr df)
    rw [sortedAddr, length_stableSort] at h
    exact h
  have h2 := withAddr_length_le df
  have h3 : (withoutAddr df).length + (withAddrBase df).length
      = (remainingAfterVin df).length := by
    rw [withoutAddr, withAddrBase]
    exact length_filter_add_length_filter_not
      (fun w => (gkAddr w.row).isEmpty) (remainingAfterVin df)
  have h4 : (survVin df).length ≤ (withVin df).length := by
    have h := tailPerGroup_length_le gkVin (sortedVin df)
    rw [sortedVin, length_stableSort] at h
    exact h
  have h5 : (withVin df).length + (withoutVin df).length
      = (workOf df).length := by
    rw [withVin, withoutVin]
    exact length_filter_add_length_filter_not
      (fun w => vinValid w.row) (workOf df)
  have h6 : (workOf df).length = df.length := by
    rw [workOf, List.length_map, List.enum_length]
  have h7 : (remainingAfterVin df).length
      = (survVin df).length + (withoutVin df).length := by
    rw [remainingAfterVin, List.length_append]
  have h8 : (dedupOut df).length
      = (survAddr df).length + (withoutAddr df).length := by
    rw [dedupOut, List.length_append]
  omega

/-- C9: `delete_duplicates` is total — it is a function defined on every
table, an empty input yields an empty output with zero removed, and in
general the removed count plus the output size accounts exactly for the
input size. -/
theorem delete_duplicates_total :
    deleteDuplicates [] = ([], 0) ∧
    ∀ df : List Row,
      (deleteDuplicates df).1.length + (deleteDuplicates df).2 = df.length := by
  constructor
  · rfl
  · intro df
    rw [deleteDuplicates]
    by_cases h : df.length = 0
    · rw [if_pos h]
      simp
    · rw [if_neg h]
      have hle := dedup_out_length_le df
      simp only [List.length_map]
      omega

/-- C2: the cross-pass consistency rule.  (1) If a pass-1-dropped row's
Effective Date is present and strictly newer than every present
Effective Date among the post-pass-1 remaining rows sharing its
(nonempty) Address Key, the entire address group is suppressed: no output
row carries that key.  (2) Among surviving rows, a dated survivor is
never older than a dated row that pass 1 dropped at the same Address
Key. -/
theorem cross_pass_consistency :
    (∀ (df : List Row) (w : WRow) (d : Int),
      w ∈ droppedVin df →
      gkAddr w.row ≠ [] →
      effDate w.row = some d →
      (∀ w' ∈ remainingAfterVin df, gkAddr w'.row = gkAddr w.row →
        ∀ d' : Int, effDate w'.row = some d' → d' < d) →
      ∀ s ∈ (deleteDuplicates df).1, addrKey s ≠ addrKey w.row) ∧
    (∀ (df : List Row) (s w : WRow) (ds dr : Int),
      s ∈ dedupOut df → w ∈ droppedVin df →
      gkAddr s.row = gkAddr w.row → gkAddr w.row ≠ [] →
      effDate s.row = some ds → effDate w.row = some dr →
      dr ≤ ds) := by
  constructor
  · intro df w d hdrop hk hdate hnewer s hsmem hcontra
    have hkp : gkAddr w.row ∈ pruneKeys df := by
      rw [pruneKeys]
      refine List.mem_filterMap.mpr ⟨w, hdrop, ?_⟩
      dsimp only
      rw [if_neg hk, hdate]
      cases hre : remMaxAt df (gkAddr w.row) with
      | none => rfl
      | some m =>
        have hml : listMax ((remainingAfterVin df).filterMap
            (fun w' => if gkAddr w'.row = gkAddr w.row then effDate w'.row
              else none)) = some m := by
          rw [remMaxAt] at hre
          exact hre
        rcases List.mem_filterMap.mp (listMax_mem hml) with ⟨w0, hw0r, hw0f⟩
        by_cases hg0 : gkAddr w0.row = gkAddr w.row
        · rw [if_pos hg0] at hw0f
          have hmd : m < d := hnewer w0 hw0r hg0 m hw0f
          dsimp only
          rw [if_pos hmd]
        · rw [if_neg hg0] at hw0f
          exact absurd hw0f (by simp)
    rw [deleteDuplicates] at hsmem
    by_cases hdf : df.length = 0
    · rw [if_pos hdf] at hsmem
      rw [List.length_eq_zero.mp hdf] at hsmem
      exact absurd hsmem (List.not_mem_nil s)
    · rw [if_neg hdf] at hsmem
      rcases List.mem_map.mp hsmem with ⟨w0, hw0, rfl⟩
      rcases List.mem_append.mp hw0 with h1 | h2
      · have hw1 : w0 ∈ withAddr df := by
          have h := tailPerGroup_subset gkAddr h1
          rw [sortedAddr, mem_stableSort] at h
          exact h
        have hpne : ¬ (pruneKeys df).isEmpty = true := by
          cases hpk : pruneKeys df with
          | nil => rw [hpk] at hkp; exact absurd hkp (List.not_mem_nil _)
          | cons a l => simp
        rw [withAddr, if_neg hpne] at hw1
        have hnot : gkAddr w0.row ∉ pruneKeys df :=
          of_decide_eq_true (List.mem_filter.mp hw1).2
        apply hnot
        have : gkAddr w0.row = gkAddr w.row := congrArg String.data hcontra
        rw [this]
        exact hkp
      · have h3 := (List.mem_filter.mp h2).2
        apply hk
        have h4 : gkAddr w0.row = [] := by
          cases hg : gkAddr w0.row with
          | nil => rfl
          | cons a l => rw [hg] at h3; exact absurd h3 (by simp)
        have h5 : gkAddr w0.row = gkAddr w.row := congrArg String.data hcontra
        rw [← h5]
        exact h4
  · intro df s w ds dr hsmem hdrop hkeq hk hds hdr
    rcases List.mem_append.mp hsmem with hs1 | hs2
    swap
    · exfalso
      have h3 := (List.mem_filter.mp hs2).2
      apply hk
      rw [← hkeq]
      cases hg : gkAddr s.row with
      | nil => rfl
      | cons a l => rw [hg] at h3; exact absurd h3 (by simp)
    have hsw : s ∈ withAddr df := by
      have h := tailPerGroup_subset gkAddr hs1
      rw [sortedAddr, mem_stableSort] at h
      exact h
    have hknp : gkAddr w.row ∉ pruneKeys df := by
      rw [withAddr] at hsw
      by_cases hpe : (pruneKeys df).isEmpty = true
      · cases hpk : pruneKeys df with
        | nil => exact List.not_mem_nil _
        | cons a l => rw [hpk] at hpe; exact absurd hpe (by simp)
      · rw [if_neg hpe] at hsw
        have h := of_decide_eq_true (List.mem_filter.mp hsw).2
        rwa [hkeq] at h
    cases hre : remMaxAt df (gkAddr w.row) with
    | none =>
      exfalso
      apply hknp
      rw [pruneKeys]
      refine List.mem_filterMap.mpr ⟨w, hdrop, ?_⟩
      dsimp only
      rw [if_neg hk, hdr, hre]
    | some m =>
      by_cases hdm : dr > m
      · exfalso
        apply hknp
        rw [pruneKeys]
        refine List.mem_filterMap.mpr ⟨w, hdrop, ?_⟩
        dsimp only
        rw [if_neg hk, hdr, hre]
        dsimp only
        rw [if_pos hdm]
      · push_neg at hdm
        have hml : listMax ((remainingAfterVin df).filterMap
            (fun w' => if gkAddr w'.row = gkAddr w.row then effDate w'.row
              else none)) = some m := by
          rw [remMaxAt] at hre
          exact hre
        rcases List.mem_filterMap.mp (listMax_mem hml) with ⟨w0, hw0r, hw0f⟩
        by_cases hg0 : gkAddr w0.row = gkAddr w.row
        · rw [if_pos hg0] at hw0f
          have hw0a : w0 ∈ withAddr df := by
            have hbase : w0 ∈ withAddrBase df := by
              rw [withAddrBase]
              refine List.mem_filter.mpr ⟨hw0r, ?_⟩
              have hne : gkAddr w0.row ≠ [] := by rw [hg0]; exact hk
              cases hg : gkAddr w0.row with
              | nil => exact absurd hg hne
              | cons a l => rfl
            rw [withAddr]
            by_cases hpe : (pruneKeys df).isEmpty = true
            · rw [if_pos hpe]
              exact hbase
            · rw [if_neg hpe]
              refine List.mem_filter.mpr ⟨hbase, ?_⟩
              exact decide_eq_true (by rw [hg0]; exact hknp)
          have hw0s : w0 ∈ sortedAddr df := by
            rw [sortedAddr, mem_stableSort]
            exact hw0a
          have hgs : gkAddr w0.row = gkAddr s.row := by rw [hg0, ← hkeq]
          have hmax := tailPerGroup_ge gkAddr (sortedAddr_pairwise df) hs1
            w0 hw0s hgs
          have hrle := restKey_le_of_group_eq hmax hgs
          have hdc := dateCode_le_of_restKey_le hrle
          rw [hw0f, hds] at hdc
          exact le_trans hdm (le_of_dateCode_some_le hdc)
        · rw [if_neg hg0] at hw0f
          exact absurd hw0f (by simp)

/-- Witness for `cross_pass_consistency`: in the prune scenario the
surviving row's address differs from the suppressed group's; in the
recency scenario the dropped date 100 is at most the surviving 300. -/
theorem cross_pass_consistency_witness :
    addrKey pruneRow2 ≠ addrKey pruneRow0 ∧ (100 : Int) ≤ 300 := by
  constructor
  · have hnewer : ∀ w' ∈ remainingAfterVin dfPrune,
        gkAddr w'.row = gkAddr (⟨0, pruneRow0⟩ : WRow).row →
        ∀ d' : Int, effDate w'.row = some d' → d' < 100 := by
      intro w' hw' hkeq d' hd'
      have hrem : remainingAfterVin dfPrune
          = [⟨1, pruneRow1⟩, ⟨2, pruneRow2⟩] := by decide
      rw [hrem] at hw'
      rcases List.mem_cons.mp hw' with rfl | hw2
      · have h0 : effDate (⟨1, pruneRow1⟩ : WRow).row = none := by decide
        rw [h0] at hd'
        exact Option.noConfusion hd'
      · rcases List.mem_cons.mp hw2 with rfl | hw3
        · exact absurd hkeq (by decide)
        · exact absurd hw3 (List.not_mem_nil _)
    exact cross_pass_consistency.1 dfPrune ⟨0, pruneRow0⟩ 100
      (by decide) (by decide) (by decide) hnewer pruneRow2 (by decide)
  · exact cross_pass_consistency.2 dfRec ⟨1, recRow1⟩ ⟨0, recRow0⟩ 300 100
      (by decide) (by decide) (by decide) (by decide) (by decide) (by decide)

end SalesSheet
